import Mathlib

/-!
Verification development for the `fuzz` package (src/fuzz.go): a fuzz
session bound to one record (struct) type, with a reversible per-field
generator binding registry, a zero-value fallthrough flag, and a
value-production routine that walks the record's fields.

Shallow embedding notes:
* Go maps (`f.bindings`, `f.fields`) are embedded as association lists
  with map-style lookup / insert / delete.  Iteration order of a Go map
  is not specified, so the map-iteration performed by `Fuzz.Value` takes
  the enumeration order as an explicit argument (any permutation of the
  field table).
* `panic` / `recover` control flow is embedded with an explicit panic
  channel in the result types; the two public entry points run a recover
  step that converts a panic into a returned error, exactly as the
  deferred `recover()` blocks in the source do.
* The `option` closures of the source are defunctionalised into the
  inductive `Opt`, one constructor per closure family the package
  constructs (`BindField`, `UnbindField`, `UseZeroValueFallthrough`);
  `Opt.apply` is the body of the corresponding closure.
* The external collaborators (the `*rand.Rand` source and
  `testing/quick.Value`) are modelled as deterministic consumers of an
  explicit stream of numbers, per the spec's "deterministic given a
  fixed seed and sequence of calls" contract; only the field kinds the
  claims use (`string`, `int`) are modelled.
-/

/-- Field kinds modelled for record types. -/
inductive GoType where
  | string
  | int
deriving DecidableEq, Repr

/-- Values of the modelled field kinds. -/
inductive GoValue where
  | str (s : String)
  | int (n : Int)
deriving DecidableEq, Repr

/-- The dynamic type of a value (what `reflect.Value.Type()` reports). -/
def GoValue.typeOf : GoValue → GoType
  | GoValue.str _ => GoType.string
  | GoValue.int _ => GoType.int

/-- The zero value of a field kind (`reflect.New(t).Elem()` per field). -/
def GoType.zeroValue : GoType → GoValue
  | GoType.string => GoValue.str ""
  | GoType.int => GoValue.int 0

/-- A record shape: the introspected field table, field name paired with
its declared type (the `map[string]reflect.StructField` of the source,
as an association list). -/
abbrev RecordTy : Type := List (String × GoType)

/-- A record value: one slot per field (a `reflect.Value` of struct kind). -/
abbrev GoRecord : Type := List (String × GoValue)

/-- The random source: an explicit stream of numbers.  The source is an
opaque external collaborator; per the spec it is deterministic given a
fixed seed and sequence of calls, so two freshly re-seeded identical
sources are two equal streams. -/
abbrev RandSrc : Type := List Nat

/-- Drawing from the random source consumes the head of the stream. -/
def randNext (r : RandSrc) : Nat × RandSrc := (r.headD 0, r.tail)

/-- Error values of the package (the `errors.New` / `fmt.Errorf` values
of src/fuzz.go). -/
inductive Err where
  | illegal
  | missingFunc
  | notStruct
  | unmatchedBinding
  | duplBinding
  | illegalGen
  | absentBinding (name : String)
  | genFailure (msg : String)
  | optionPanicWrap (msg : String)
  | valuePanicWrap (msg : String)
deriving DecidableEq, Repr

/-- A panic payload: either an `error` value or some other value
(described by its formatted text), matching the `r.(error)` type switch
in the recover blocks. -/
inductive PanicVal where
  | errVal (e : Err)
  | other (msg : String)
deriving DecidableEq, Repr

/-- Outcome of one `Generator.Generate(r, n)` call: a value together
with the advanced random source, a returned error, or a panic raised by
the caller-supplied generator body. -/
inductive GenStep where
  | ok (v : GoValue) (r : RandSrc)
  | err (e : Err)
  | panic (p : PanicVal)

/-- A caller-supplied generator: `Generate(r *rand.Rand, n int)
(reflect.Value, error)`, with the panic channel made explicit. -/
abbrev Generator : Type := RandSrc → Nat → GenStep

/-- A generator that always succeeds with the fixed value `v` and does
not consume the random source. -/
def constGen (v : GoValue) : Generator := fun r _ => GenStep.ok v r

/-- Map lookup on an association list (`m[k]`, first match). -/
def lookupKey {α : Type} : List (String × α) → String → Option α
  | [], _ => none
  | (k', v) :: rest, k => if k' = k then some v else lookupKey rest k

/-- Map insert on an association list (`m[k] = v`): replaces the value
if the key is present, otherwise adds the entry. -/
def mapInsert {α : Type} (l : List (String × α)) (k : String) (v : α) :
    List (String × α) :=
  if (lookupKey l k).isSome then
    l.map (fun p => if p.1 = k then (k, v) else p)
  else
    (k, v) :: l

/-- Map delete on an association list (`delete(m, k)`). -/
def eraseKey {α : Type} : List (String × α) → String → List (String × α)
  | [], _ => []
  | (k', v) :: rest, k =>
    if k' = k then eraseKey rest k else (k', v) :: eraseKey rest k

/-- The `Fuzz` session: binding registry, fallthrough flag, type handle
and the introspected field table. -/
structure Fuzz where
  bindings : List (String × Generator)
  zeroValueFallthrough : Bool
  typ : RecordTy
  fields : RecordTy

/-- `New(t)` for a struct type `t`: empty registry, flag off, fields
introspected from `t` (the non-struct failure path of `New` takes no
part in any claim and is not modelled). -/
def Fuzz.new (t : RecordTy) : Fuzz :=
  { bindings := [], zeroValueFallthrough := false, typ := t, fields := t }

/-- The configuration operations (`option` closures of the source,
defunctionalised: the package constructs exactly these three closure
families). -/
inductive Opt where
  | BindField (name : String) (gen : Generator)
  | UnbindField (name : String)
  | UseZeroValueFallthrough (b : Bool)

/-- The body of each `option` closure: mutates the session and returns
the inverse operation, or returns a `nil` option together with an error
(on every failing path the source returns `nil, err` and leaves the
session untouched). -/
def Opt.apply : Opt → Fuzz → Fuzz × Option Opt × Option Err
  | Opt.UseZeroValueFallthrough b, f =>
    ({ f with zeroValueFallthrough := b },
      some (Opt.UseZeroValueFallthrough f.zeroValueFallthrough), none)
  | Opt.BindField name gen, f =>
    if (lookupKey f.bindings name).isSome then (f, none, some Err.duplBinding)
    else if (lookupKey f.fields name).isSome = false then
      (f, none, some Err.unmatchedBinding)
    else
      ({ f with bindings := mapInsert f.bindings name gen },
        some (Opt.UnbindField name), none)
  | Opt.UnbindField name, f =>
    match lookupKey f.bindings name with
    | none => (f, none, some (Err.absentBinding name))
    | some gen =>
      ({ f with bindings := eraseKey f.bindings name },
        some (Opt.BindField name gen), none)

/-- Result of the configuration-application entry point, with the panic
channel explicit (the named returns `prev, err` plus a possible escaped
panic). -/
inductive ORes where
  | ret (f : Fuzz) (prev : Option Opt) (e : Option Err)
  | panicked (f : Fuzz) (prev : Option Opt) (p : PanicVal)

/-- The loop of `Fuzz.Option`: `prev, err = opt(f); if err != nil
{ return prev, err }`.  Note that a failing option's own return value
(always `nil`) overwrites `prev` before the early return. -/
def optionLoop (f : Fuzz) (prev : Option Opt) : List Opt → ORes
  | [] => ORes.ret f prev none
  | o :: rest =>
    match Opt.apply o f with
    | (f', p, some e) => ORes.ret f' p (some e)
    | (f', p, none) => optionLoop f' p rest

/-- The recover conversion of `Fuzz.Option`: `err, ok = r.(error)`,
otherwise `fmt.Errorf("fuzz: option error %s", r)`. -/
def recoverOption : PanicVal → Err
  | PanicVal.errVal e => e
  | PanicVal.other msg => Err.optionPanicWrap msg

/-- `Fuzz.Option(opts...)`: applies the operations in order with the
deferred-recover boundary. -/
def fuzzOption (f : Fuzz) (opts : List Opt) : ORes :=
  match optionLoop f none opts with
  | ORes.panicked f' prev p => ORes.ret f' prev (some (recoverOption p))
  | res => res

/-- Model of the external default-value facility `testing/quick.Value`:
an opaque collaborator that, for a supported field type, draws from the
random source and produces a value of that type (deterministic given
the source's state; the value depends on the draw).  Both modelled
kinds are supported by `quick.Value`, so the result is always `some`. -/
def quickValue : GoType → RandSrc → Option (GoValue × RandSrc)
  | GoType.string, r => some (GoValue.str (toString (randNext r).1), (randNext r).2)
  | GoType.int, r => some (GoValue.int (Int.ofNat (randNext r).1), (randNext r).2)

/-- A fresh zero-initialised record instance (`reflect.New(f.typ).Elem()`). -/
def zeroRecord (t : RecordTy) : GoRecord :=
  t.map (fun p => (p.1, p.2.zeroValue))

/-- `v.FieldByName(name).Set(elem)`: writes the field if it exists and
the value's type is assignable to it; otherwise `Set` panics (`none`). -/
def setField (rec : GoRecord) (name : String) (val : GoValue) :
    Option GoRecord :=
  match lookupKey rec name with
  | some old =>
    if old.typeOf = val.typeOf then
      some (rec.map (fun p => if p.1 = name then (p.1, val) else p))
    else none
  | none => none

/-- Text of the runtime panic raised by `reflect.Value.Set` on an
unusable target or unassignable value. -/
def reflectSetMsg : String := "reflect: Set of unassignable value"

/-- Result of the value-production entry point, with the panic channel
explicit; both constructors carry the session (the receiver `f` at
return time) and the named return `v` (the partially built record). -/
inductive VRes where
  | ret (f : Fuzz) (v : GoRecord) (e : Option Err)
  | panicked (f : Fuzz) (v : GoRecord) (p : PanicVal)

/-- The session carried by a value-production result. -/
def VRes.sessionOf : VRes → Fuzz
  | VRes.ret f _ _ => f
  | VRes.panicked f _ _ => f

/-- The (possibly partial) record carried by a value-production result. -/
def VRes.record : VRes → GoRecord
  | VRes.ret _ v _ => v
  | VRes.panicked _ v _ => v

/-- The returned error of a value-production result (`none` while the
panic has not yet been recovered). -/
def VRes.errOf : VRes → Option Err
  | VRes.ret _ _ e => e
  | VRes.panicked _ _ _ => none

/-- The field loop of `Fuzz.Value`: for each enumerated field, a bound
generator wins; else the zero-value fallthrough skips the field; else
the default facility `quick.Value` fills it.  `enum` is the order in
which the Go map `f.fields` happens to be iterated. -/
def valueLoop (f : Fuzz) (n : Nat) :
    List (String × GoType) → GoRecord → RandSrc → VRes
  | [], v, _ => VRes.ret f v none
  | (name, fty) :: rest, v, r =>
    match lookupKey f.bindings name with
    | some gen =>
      match gen r n with
      | GenStep.err e => VRes.ret f v (some e)
      | GenStep.panic p => VRes.panicked f v p
      | GenStep.ok elem r' =>
        match setField v name elem with
        | some v' => valueLoop f n rest v' r'
        | none => VRes.panicked f v (PanicVal.other reflectSetMsg)
    | none =>
      if f.zeroValueFallthrough then valueLoop f n rest v r
      else
        match quickValue fty r with
        | none => VRes.ret f v (some Err.illegal)
        | some (elem, r') =>
          match setField v name elem with
          | some v' => valueLoop f n rest v' r'
          | none => VRes.panicked f v (PanicVal.other reflectSetMsg)

/-- The recover conversion of `Fuzz.Value`: `err, ok = r.(error)`,
otherwise `fmt.Errorf("fuzz: %v", r)`. -/
def recoverValue : PanicVal → Err
  | PanicVal.errVal e => e
  | PanicVal.other msg => Err.valuePanicWrap msg

/-- `Fuzz.Value(r, n)`: allocates the zero record, runs the field loop
in the given map-enumeration order, with the deferred-recover boundary
converting any panic into a returned error (the named return `v` keeps
its last value). -/
def fuzzValue (f : Fuzz) (enum : List (String × GoType)) (r : RandSrc)
    (n : Nat) : VRes :=
  match valueLoop f n enum (zeroRecord f.typ) r with
  | VRes.panicked f' v p => VRes.ret f' v (some (recoverValue p))
  | res => res

/-- The panic message of the (dead) length guard in `QuickValues`. -/
def incongruentMsg : String :=
  "fuzz: incongruent Values() and Generator... signature"

/-- The runtime panic raised by an out-of-range slice index. -/
def indexOutOfRangeMsg : String := "runtime error: index out of range"

/-- Result of the bulk-fill adapter: the filled slots and advanced
random source, or a panic. -/
inductive QRes where
  | ret (slots : List GoValue) (r : RandSrc)
  | panicked (p : PanicVal)

/-- The loop of `QuickValues`: `for i, g := range g { v[i], err =
g.Generate(r, 0); if err != nil { panic(...) } }`.  The generator is
invoked before the slot is written; writing past the end of the slot
slice is a runtime index panic. -/
def quickValuesLoop : List Generator → Nat → List GoValue → RandSrc → QRes
  | [], _, slots, r => QRes.ret slots r
  | g :: gs, i, slots, r =>
    match g r 0 with
    | GenStep.err e => QRes.panicked (PanicVal.errVal e)
    | GenStep.panic p => QRes.panicked p
    | GenStep.ok val r' =>
      if i < slots.length then
        quickValuesLoop gs (i + 1) (slots.set i val) r'
      else QRes.panicked (PanicVal.other indexOutOfRangeMsg)

/-- `QuickValues(g...)` applied to the slot slice `v` and source `r`:
the guard compares `len(v)` with `len(v)` — as written in the source —
so it can never fire; then the slots are filled positionally. -/
def QuickValues (gens : List Generator) (slots : List GoValue)
    (r : RandSrc) : QRes :=
  if slots.length ≠ slots.length then
    QRes.panicked (PanicVal.other incongruentMsg)
  else quickValuesLoop gens 0 slots r

/-- The `Person{Name string; Age int}` record type of the spec's
concrete scenarios. -/
def personType : RecordTy :=
  [("Name", GoType.string), ("Age", GoType.int)]

/-- A fresh session for `Person`: no bindings, fallthrough disabled. -/
def personFuzz : Fuzz := Fuzz.new personType

/-- The generator that always returns `42` (an `int`). -/
def gen42 : Generator := constGen (GoValue.int 42)

/-- The `Person` session with `Age` bound to `gen42` and the
fallthrough flag set to `b` (the state reached from `personFuzz` by
`BindField("Age", gen42)` and `UseZeroValueFallthrough(b)`). -/
def personBound (b : Bool) : Fuzz :=
  { bindings := [("Age", gen42)], zeroValueFallthrough := b,
    typ := personType, fields := personType }

theorem lookupKey_cons_self {α : Type} (k : String) (v : α)
    (l : List (String × α)) : lookupKey ((k, v) :: l) k = some v := by
  simp [lookupKey]

theorem lookupKey_cons_ne {α : Type} {k' k : String} (v : α)
    (l : List (String × α)) (h : k' ≠ k) :
    lookupKey ((k', v) :: l) k = lookupKey l k := by
  simp [lookupKey, h]

theorem eraseKey_of_lookup_none {α : Type} {l : List (String × α)}
    {k : String} (h : lookupKey l k = none) : eraseKey l k = l := by
  induction l with
  | nil => rfl
  | cons p rest ih =>
    obtain ⟨k', v⟩ := p
    by_cases hk : k' = k
    · subst hk; rw [lookupKey_cons_self] at h; cases h
    · rw [lookupKey_cons_ne v rest hk] at h
      simp [eraseKey, hk, ih h]

theorem lookupKey_eraseKey_self {α : Type} (l : List (String × α))
    (k : String) : lookupKey (eraseKey l k) k = none := by
  induction l with
  | nil => rfl
  | cons p rest ih =>
    obtain ⟨k', v⟩ := p
    by_cases hk : k' = k
    · simp [eraseKey, hk, ih]
    · simp [eraseKey, hk, lookupKey, ih]

theorem lookupKey_eraseKey_ne {α : Type} (l : List (String × α))
    {k k' : String} (h : k' ≠ k) :
    lookupKey (eraseKey l k) k' = lookupKey l k' := by
  induction l with
  | nil => rfl
  | cons p rest ih =>
    obtain ⟨a, b⟩ := p
    by_cases ha : a = k
    · subst ha
      have : a ≠ k' := fun hc => h (hc ▸ rfl)
      simp [eraseKey, lookupKey, this, ih]
    · by_cases ha' : a = k'
      · subst ha'; simp [eraseKey, ha, lookupKey]
      · simp [eraseKey, ha, lookupKey, ha', ih]

theorem mapInsert_of_lookup_none {α : Type} {l : List (String × α)}
    {k : String} (v : α) (h : lookupKey l k = none) :
    mapInsert l k v = (k, v) :: l := by
  simp [mapInsert, h]

theorem lookupKey_update_self {α : Type} (l : List (String × α))
    (k : String) (val : α) (h : (lookupKey l k).isSome = true) :
    lookupKey (l.map fun p => if p.1 = k then (p.1, val) else p) k = some val := by
  induction l with
  | nil => simp [lookupKey] at h
  | cons p rest ih =>
    obtain ⟨a, b⟩ := p
    rw [List.map_cons]
    dsimp only
    by_cases ha : a = k
    · rw [if_pos ha]
      subst ha
      exact lookupKey_cons_self a val _
    · rw [lookupKey_cons_ne b rest ha] at h
      rw [if_neg ha, lookupKey_cons_ne b _ ha]
      exact ih h

theorem lookupKey_update_ne {α : Type} (l : List (String × α))
    (k : String) (val : α) {k' : String} (h : k' ≠ k) :
    lookupKey (l.map fun p => if p.1 = k then (p.1, val) else p) k' =
      lookupKey l k' := by
  induction l with
  | nil => rfl
  | cons p rest ih =>
    obtain ⟨a, b⟩ := p
    rw [List.map_cons]
    dsimp only
    by_cases ha : a = k
    · rw [if_pos ha]
      have hak : a ≠ k' := fun hc => h (hc ▸ ha)
      rw [lookupKey_cons_ne val _ hak, lookupKey_cons_ne b rest hak]
      exact ih
    · rw [if_neg ha]
      by_cases ha' : a = k'
      · subst ha'
        rw [lookupKey_cons_self, lookupKey_cons_self]
      · rw [lookupKey_cons_ne b _ ha', lookupKey_cons_ne b rest ha']
        exact ih

theorem setField_lookup_self {rec rec' : GoRecord} {name : String}
    {val : GoValue} (h : setField rec name val = some rec') :
    lookupKey rec' name = some val := by
  unfold setField at h
  cases hl : lookupKey rec name with
  | none => rw [hl] at h; cases h
  | some old =>
    rw [hl] at h
    dsimp only at h
    by_cases ht : old.typeOf = val.typeOf
    · rw [if_pos ht] at h
      cases h
      exact lookupKey_update_self rec name val (by rw [hl]; rfl)
    · rw [if_neg ht] at h; cases h

theorem setField_lookup_ne {rec rec' : GoRecord} {name : String}
    {val : GoValue} (h : setField rec name val = some rec')
    {k : String} (hk : k ≠ name) :
    lookupKey rec' k = lookupKey rec k := by
  unfold setField at h
  cases hl : lookupKey rec name with
  | none => rw [hl] at h; cases h
  | some old =>
    rw [hl] at h
    dsimp only at h
    by_cases ht : old.typeOf = val.typeOf
    · rw [if_pos ht] at h
      cases h
      exact lookupKey_update_ne rec name val hk
    · rw [if_neg ht] at h; cases h

theorem apply_fail_eq {o : Opt} {f : Fuzz} {e : Err}
    (h : (Opt.apply o f).2.2 = some e) : Opt.apply o f = (f, none, some e) := by
  cases o with
  | UseZeroValueFallthrough b => simp [Opt.apply] at h
  | BindField name gen =>
    by_cases h1 : (lookupKey f.bindings name).isSome = true
    · simp only [Opt.apply, if_pos h1] at h ⊢
      cases h; rfl
    · by_cases h2 : (lookupKey f.fields name).isSome = true
      · simp only [Opt.apply, if_neg h1, h2] at h
        simp at h
      · simp only [Opt.apply, if_neg h1] at h ⊢
        rw [eq_false_of_ne_true h2] at h ⊢
        simp only [if_pos rfl] at h ⊢
        cases h; rfl
  | UnbindField name =>
    cases hb : lookupKey f.bindings name with
    | none =>
      simp only [Opt.apply, hb] at h ⊢
      cases h; rfl
    | some gen =>
      simp only [Opt.apply, hb] at h
      exact Option.noConfusion h

theorem optionLoop_append {f f1 : Fuzz} {prev p1 : Option Opt}
    {l1 l2 : List Opt} (h : optionLoop f prev l1 = ORes.ret f1 p1 none) :
    optionLoop f prev (l1 ++ l2) = optionLoop f1 p1 l2 := by
  induction l1 generalizing f prev with
  | nil =>
    simp only [optionLoop] at h
    cases h
    rfl
  | cons o rest ih =>
    simp only [List.cons_append, optionLoop] at h ⊢
    rcases ha : Opt.apply o f with ⟨f', p, e⟩
    rw [ha] at h
    cases e with
    | some e' =>
      dsimp only at h
      injection h with h1 h2 h3
      exact Option.noConfusion h3
    | none =>
      dsimp only at h ⊢
      exact ih h

/-- C1 (amended): if every operation of the prefix succeeds and the next
operation fails, composite application stops at the failing operation —
the operations after it are never attempted and neither they nor the
failing operation change the session — and the call returns the failure
together with a `nil` inverse: the failing operation's own `nil` option
return overwrites the inverse of the last successfully applied
operation, which is therefore not returned. -/
theorem option_short_circuit (f f1 : Fuzz) (pre rest : List Opt) (o : Opt)
    (p1 : Option Opt) (e : Err)
    (hpre : optionLoop f none pre = ORes.ret f1 p1 none)
    (hfail : (Opt.apply o f1).2.2 = some e) :
    fuzzOption f (pre ++ o :: rest) = ORes.ret f1 none (some e) := by
  have hx := apply_fail_eq hfail
  unfold fuzzOption
  rw [optionLoop_append hpre]
  simp only [optionLoop]
  rw [hx]

/-- C1 witness: on a fresh `Person` session, `[UseZeroValueFallthrough
true (succeeds), BindField "Nickname" (fails), BindField "Age" (never
attempted)]` stops after the second operation with the flag set, the
third operation's effect absent, and a `nil` inverse. -/
theorem option_short_circuit_witness :
    fuzzOption personFuzz
        ([Opt.UseZeroValueFallthrough true] ++
          Opt.BindField "Nickname" gen42 :: [Opt.BindField "Age" gen42]) =
      ORes.ret { personFuzz with zeroValueFallthrough := true } none
        (some Err.unmatchedBinding) :=
  option_short_circuit personFuzz
    { personFuzz with zeroValueFallthrough := true }
    [Opt.UseZeroValueFallthrough true] [Opt.BindField "Age" gen42]
    (Opt.BindField "Nickname" gen42) (some (Opt.UseZeroValueFallthrough false))
    Err.unmatchedBinding rfl rfl

/-- C1 counterexample: with `op1 = UseZeroValueFallthrough true`
(succeeds, inverse `UseZeroValueFallthrough false`) and `op2 = BindField
"Nickname"` (fails), the composite call returns a `nil` inverse, not the
inverse of the last successfully applied operation. -/
theorem option_short_circuit_counterexample :
    fuzzOption personFuzz
        [Opt.UseZeroValueFallthrough true, Opt.BindField "Nickname" gen42,
          Opt.BindField "Age" gen42] =
      ORes.ret { personFuzz with zeroValueFallthrough := true } none
        (some Err.unmatchedBinding) ∧
    (none : Option Opt) ≠ some (Opt.UseZeroValueFallthrough false) :=
  ⟨rfl, by simp⟩

/-- C4: for any session, any field name `F` of its record type that is
currently unbound, and any generator `G`, applying `BindField(F, G)`
succeeds with inverse `UnbindField(F)`, and applying that inverse
restores the session exactly — `F` unbound again, registry and
fallthrough flag as before — and hands back `BindField(F, G)`. -/
theorem bindField_roundtrip (f : Fuzz) (name : String) (G : Generator)
    (hfield : (lookupKey f.fields name).isSome = true)
    (hunbound : lookupKey f.bindings name = none) :
    Opt.apply (Opt.BindField name G) f =
      ({ f with bindings := mapInsert f.bindings name G },
        some (Opt.UnbindField name), none) ∧
    Opt.apply (Opt.UnbindField name)
        { f with bindings := mapInsert f.bindings name G } =
      (f, some (Opt.BindField name G), none) := by
  have hins : mapInsert f.bindings name G = (name, G) :: f.bindings :=
    mapInsert_of_lookup_none G hunbound
  constructor
  · simp only [Opt.apply, hunbound, Option.isSome_none, Bool.false_eq_true,
      if_false, hfield]
    rw [if_neg (by simp)]
  · simp only [Opt.apply, hins]
    rw [lookupKey_cons_self]
    dsimp only
    rw [show eraseKey ((name, G) :: f.bindings) name = f.bindings from by
      rw [eraseKey, if_pos rfl, eraseKey_of_lookup_none hunbound]]

/-- C4 witness: `BindField("Age", gen42)` on a fresh `Person` session
followed by its returned inverse restores the fresh session. -/
theorem bindField_roundtrip_witness :
    Opt.apply (Opt.BindField "Age" gen42) personFuzz =
      ({ personFuzz with bindings := mapInsert personFuzz.bindings "Age" gen42 },
        some (Opt.UnbindField "Age"), none) ∧
    Opt.apply (Opt.UnbindField "Age")
        { personFuzz with bindings := mapInsert personFuzz.bindings "Age" gen42 } =
      (personFuzz, some (Opt.BindField "Age" gen42), none) :=
  bindField_roundtrip personFuzz "Age" gen42 (by decide) rfl

/-- C5: on any session satisfying the registry invariant (every bound
name is a field name), `BindField(name, G)` fails with the unmatched
binding error when `name` is not a field of the record type, fails with
the duplicated binding error when `name` is already bound — in both
cases leaving the session, its registry included, unchanged — and
otherwise succeeds, recording the mapping and returning the inverse
`UnbindField(name)`. -/
theorem bindField_failure_modes (f : Fuzz) (name : String) (G : Generator)
    (hinv : ∀ k, (lookupKey f.bindings k).isSome = true →
      (lookupKey f.fields k).isSome = true) :
    (lookupKey f.fields name = none →
      Opt.apply (Opt.BindField name G) f = (f, none, some Err.unmatchedBinding)) ∧
    ((lookupKey f.bindings name).isSome = true →
      Opt.apply (Opt.BindField name G) f = (f, none, some Err.duplBinding)) ∧
    (lookupKey f.bindings name = none → (lookupKey f.fields name).isSome = true →
      Opt.apply (Opt.BindField name G) f =
        ({ f with bindings := mapInsert f.bindings name G },
          some (Opt.UnbindField name), none)) := by
  refine ⟨?_, ?_, ?_⟩
  · intro hf
    have hb : (lookupKey f.bindings name).isSome = false := by
      by_contra hc
      have hbs : (lookupKey f.bindings name).isSome = true := by
        revert hc
        cases (lookupKey f.bindings name).isSome <;> simp
      have := hinv name hbs
      rw [hf] at this
      exact absurd this (by simp)
    simp only [Opt.apply, hb, Bool.false_eq_true, if_false, hf]
    rw [if_pos (by simp)]
  · intro hb
    simp only [Opt.apply, if_pos hb]
  · intro hb hf
    simp only [Opt.apply, hb, Option.isSome_none, Bool.false_eq_true, if_false,
      hf]
    rw [if_neg (by simp)]

/-- C5 witness: on a fresh `Person` session, binding the nonexistent
field `Nickname` fails with the unmatched binding error, binding `Age`
on the session where `Age` is already bound fails with the duplicated
binding error (registry unchanged in both cases), and binding the free
field `Age` on the fresh session succeeds. -/
theorem bindField_failure_modes_witness :
    Opt.apply (Opt.BindField "Nickname" gen42) personFuzz =
      (personFuzz, none, some Err.unmatchedBinding) ∧
    Opt.apply (Opt.BindField "Age" gen42) (personBound false) =
      (personBound false, none, some Err.duplBinding) ∧
    Opt.apply (Opt.BindField "Age" gen42) personFuzz =
      ({ personFuzz with bindings := mapInsert personFuzz.bindings "Age" gen42 },
        some (Opt.UnbindField "Age"), none) := by
  have hinv0 : ∀ k, (lookupKey personFuzz.bindings k).isSome = true →
      (lookupKey personFuzz.fields k).isSome = true := by
    intro k hk
    simp [personFuzz, Fuzz.new, lookupKey] at hk
  have hinvB : ∀ k, (lookupKey (personBound false).bindings k).isSome = true →
      (lookupKey (personBound false).fields k).isSome = true := by
    intro k hk
    by_cases hA : k = "Age"
    · subst hA; decide
    · rw [show (personBound false).bindings = [("Age", gen42)] from rfl,
        lookupKey_cons_ne gen42 [] (fun hc => hA hc.symm)] at hk
      simp [lookupKey] at hk
  exact ⟨(bindField_failure_modes personFuzz "Nickname" gen42 hinv0).1 (by decide),
    (bindField_failure_modes (personBound false) "Age" gen42 hinvB).2.1 (by decide),
    (bindField_failure_modes personFuzz "Age" gen42 hinv0).2.2 rfl (by decide)⟩

/-- C6: `UnbindField(name)` on any session fails with the absent
binding error and changes nothing when `name` is not bound; when `name`
is bound to `G` it removes exactly that mapping — `name` unbound
afterwards, every other binding untouched — and returns the reverse
operation `BindField(name, G)` capturing the removed generator. -/
theorem unbindField_spec (f : Fuzz) (name : String) :
    (lookupKey f.bindings name = none →
      Opt.apply (Opt.UnbindField name) f =
        (f, none, some (Err.absentBinding name))) ∧
    (∀ G, lookupKey f.bindings name = some G →
      Opt.apply (Opt.UnbindField name) f =
        ({ f with bindings := eraseKey f.bindings name },
          some (Opt.BindField name G), none) ∧
      lookupKey (eraseKey f.bindings name) name = none ∧
      ∀ k, k ≠ name → lookupKey (eraseKey f.bindings name) k =
        lookupKey f.bindings k) := by
  constructor
  · intro h
    simp only [Opt.apply, h]
  · intro G h
    exact ⟨by simp only [Opt.apply, h], lookupKey_eraseKey_self _ _,
      fun k hk => lookupKey_eraseKey_ne _ hk⟩

/-- C6 witness: unbinding `Age` on a fresh `Person` session fails with
the absent binding error and leaves the session unchanged; unbinding
`Age` where it is bound to `gen42` removes the mapping and returns
`BindField("Age", gen42)`. -/
theorem unbindField_spec_witness :
    Opt.apply (Opt.UnbindField "Age") personFuzz =
      (personFuzz, none, some (Err.absentBinding "Age")) ∧
    (Opt.apply (Opt.UnbindField "Age") (personBound false) =
      ({ personBound false with
          bindings := eraseKey (personBound false).bindings "Age" },
        some (Opt.BindField "Age" gen42), none) ∧
      lookupKey (eraseKey (personBound false).bindings "Age") "Age" = none) :=
  ⟨(unbindField_spec personFuzz "Age").1 rfl,
    ((unbindField_spec (personBound false) "Age").2 gen42
        (lookupKey_cons_self "Age" gen42 [])).1,
    ((unbindField_spec (personBound false) "Age").2 gen42
        (lookupKey_cons_self "Age" gen42 [])).2.1⟩

theorem valueLoop_session (f : Fuzz) (n : Nat) :
    ∀ (l : List (String × GoType)) (v : GoRecord) (r : RandSrc),
      VRes.sessionOf (valueLoop f n l v r) = f := by
  intro l
  induction l with
  | nil => intro v r; rfl
  | cons p rest ih =>
    intro v r
    obtain ⟨name, fty⟩ := p
    simp only [valueLoop]
    cases hb : lookupKey f.bindings name with
    | some gen =>
      dsimp only
      cases hg : gen r n with
      | ok elem r' =>
        dsimp only
        cases hs : setField v name elem with
        | some v' => exact ih v' r'
        | none => rfl
      | err e => rfl
      | panic p0 => rfl
    | none =>
      dsimp only
      cases hz : f.zeroValueFallthrough with
      | true =>
        rw [if_pos rfl]
        exact ih v r
      | false =>
        rw [if_neg Bool.false_ne_true]
        cases hq : quickValue fty r with
        | none => rfl
        | some pr =>
          obtain ⟨elem, r'⟩ := pr
          dsimp only
          cases hs : setField v name elem with
          | some v' => exact ih v' r'
          | none => rfl

/-- C10: value production never touches the session's configuration —
for every session state, map-enumeration order, random source and size
hint, the session carried back by `Fuzz.Value` (registry, fallthrough
flag, type handle and field table alike) is the session it was called
on, whether the call succeeds or fails. -/
theorem value_preserves_session (f : Fuzz) (enum : List (String × GoType))
    (r : RandSrc) (n : Nat) : VRes.sessionOf (fuzzValue f enum r n) = f := by
  unfold fuzzValue
  cases hv : valueLoop f n enum (zeroRecord f.typ) r with
  | ret f' v e =>
    have h := valueLoop_session f n enum (zeroRecord f.typ) r
    rw [hv] at h
    exact h
  | panicked f' v p =>
    have h := valueLoop_session f n enum (zeroRecord f.typ) r
    rw [hv] at h
    exact h

theorem valueLoop_zero_fallthrough (f : Fuzz) (n : Nat)
    (hb : f.bindings = []) (hz : f.zeroValueFallthrough = true) :
    ∀ (l : List (String × GoType)) (v : GoRecord) (r : RandSrc),
      valueLoop f n l v r = VRes.ret f v none := by
  intro l
  induction l with
  | nil => intro v r; rfl
  | cons p rest ih =>
    intro v r
    obtain ⟨name, fty⟩ := p
    simp only [valueLoop, hb, lookupKey, hz, if_pos rfl]
    exact ih v r

/-- C8: with zero-value fallthrough enabled and no bindings, value
production succeeds and returns the all-zero record, for every
map-enumeration order, random source and size hint. -/
theorem value_zero_fallthrough (f : Fuzz) (enum : List (String × GoType))
    (r : RandSrc) (n : Nat) (hb : f.bindings = [])
    (hz : f.zeroValueFallthrough = true) :
    fuzzValue f enum r n = VRes.ret f (zeroRecord f.typ) none := by
  unfold fuzzValue
  rw [valueLoop_zero_fallthrough f n hb hz]

/-- C8 witness: the `Person` session with fallthrough enabled and no
bindings produces `Person{Name: "", Age: 0}` on an arbitrary random
stream. -/
theorem value_zero_fallthrough_witness :
    fuzzValue { personFuzz with zeroValueFallthrough := true } personType
        [3, 4] 5 =
      VRes.ret { personFuzz with zeroValueFallthrough := true }
        [("Name", GoValue.str ""), ("Age", GoValue.int 0)] none :=
  value_zero_fallthrough { personFuzz with zeroValueFallthrough := true }
    personType [3, 4] 5 rfl rfl

/-- C9: the two public entry points never let a panic escape — for
every session and operation list, and for every session, enumeration
order, random source and size hint (caller-supplied generators may
return errors or panic), both `Fuzz.Option` and `Fuzz.Value` return
through the normal (non-panicking) constructor, any internal panic
having been converted into a returned error by the recover boundary. -/
theorem entry_points_no_panic :
    (∀ (f : Fuzz) (opts : List Opt),
      ∃ f' p e, fuzzOption f opts = ORes.ret f' p e) ∧
    (∀ (f : Fuzz) (enum : List (String × GoType)) (r : RandSrc) (n : Nat),
      ∃ f' v e, fuzzValue f enum r n = VRes.ret f' v e) := by
  constructor
  · intro f opts
    unfold fuzzOption
    cases h : optionLoop f none opts with
    | ret f' p e => exact ⟨f', p, e, rfl⟩
    | panicked f' p pv => exact ⟨f', p, some (recoverOption pv), rfl⟩
  · intro f enum r n
    unfold fuzzValue
    cases h : valueLoop f n enum (zeroRecord f.typ) r with
    | ret f' v e => exact ⟨f', v, e, rfl⟩
    | panicked f' v pv => exact ⟨f', v, some (recoverValue pv), rfl⟩

theorem valueLoop_lookup_of_not_mem (f : Fuzz) (n : Nat) :
    ∀ (l : List (String × GoType)) (v : GoRecord) (r : RandSrc) (f' : Fuzz)
      (w : GoRecord) (e : Option Err) (k : String),
      valueLoop f n l v r = VRes.ret f' w e →
      k ∉ l.map Prod.fst →
      lookupKey w k = lookupKey v k := by
  intro l
  induction l with
  | nil =>
    intro v r f' w e k h _
    cases h
    rfl
  | cons p rest ih =>
    intro v r f' w e k h hk
    obtain ⟨name, fty⟩ := p
    have hkname : k ≠ name := by
      intro hc
      exact hk (by simp [hc])
    have hkrest : k ∉ rest.map Prod.fst := by
      intro hc
      exact hk (by simp [hc])
    simp only [valueLoop] at h
    cases hb : lookupKey f.bindings name <;> rw [hb] at h
    case some gen =>
      dsimp only at h
      cases hg : gen r n <;> rw [hg] at h
      case ok elem r' =>
        dsimp only at h
        cases hs : setField v name elem <;> rw [hs] at h
        case some v' =>
          dsimp only at h
          rw [ih v' r' f' w e k h hkrest]
          exact setField_lookup_ne hs hkname
        case none => dsimp only at h; cases h
      case err e0 => dsimp only at h; cases h; rfl
      case panic p0 => dsimp only at h; cases h
    case none =>
      dsimp only at h
      cases hz : f.zeroValueFallthrough <;> rw [hz] at h
      case true =>
        rw [if_pos rfl] at h
        exact ih v r f' w e k h hkrest
      case false =>
        rw [if_neg Bool.false_ne_true] at h
        cases hq : quickValue fty r <;> rw [hq] at h
        case none => dsimp only at h; cases h; rfl
        case some pr =>
          obtain ⟨elem, r'⟩ := pr
          dsimp only at h
          cases hs : setField v name elem <;> rw [hs] at h
          case some v' =>
            dsimp only at h
            rw [ih v' r' f' w e k h hkrest]
            exact setField_lookup_ne hs hkname
          case none => dsimp only at h; cases h

theorem valueLoop_bound (f : Fuzz) (n : Nat) (name : String) (G : Generator)
    (hb : lookupKey f.bindings name = some G) :
    ∀ (l : List (String × GoType)) (v : GoRecord) (r : RandSrc) (f' : Fuzz)
      (w : GoRecord),
      name ∈ l.map Prod.fst →
      valueLoop f n l v r = VRes.ret f' w none →
      ∃ r₁ val r₂, G r₁ n = GenStep.ok val r₂ ∧ lookupKey w name = some val := by
  intro l
  induction l with
  | nil =>
    intro v r f' w hmem h
    cases hmem
  | cons p rest ih =>
    intro v r f' w hmem h
    obtain ⟨nm, fty⟩ := p
    simp only [valueLoop] at h
    by_cases hn : nm = name
    · subst hn
      rw [hb] at h
      dsimp only at h
      cases hg : G r n with
      | err e0 =>
        rw [hg] at h
        dsimp only at h
        injection h with h1 h2 h3
        exact Option.noConfusion h3
      | panic p0 =>
        rw [hg] at h
        dsimp only at h
        cases h
      | ok elem r₂ =>
        rw [hg] at h
        dsimp only at h
        cases hs : setField v nm elem with
        | none =>
          rw [hs] at h
          dsimp only at h
          cases h
        | some v' =>
          rw [hs] at h
          dsimp only at h
          by_cases hm : nm ∈ rest.map Prod.fst
          · exact ih v' r₂ f' w hm h
          · refine ⟨r, elem, r₂, hg, ?_⟩
            rw [valueLoop_lookup_of_not_mem f n rest v' r₂ f' w none nm h hm]
            exact setField_lookup_self hs
    · have hmem' : name ∈ rest.map Prod.fst := by
        rw [List.map_cons] at hmem
        rcases List.mem_cons.mp hmem with h1 | h1
        · exact absurd h1.symm hn
        · exact h1
      cases hb' : lookupKey f.bindings nm with
      | some g' =>
        rw [hb'] at h
        dsimp only at h
        cases hg : g' r n with
        | err e0 =>
          rw [hg] at h
          dsimp only at h
          injection h with h1 h2 h3
          exact Option.noConfusion h3
        | panic p0 =>
          rw [hg] at h
          dsimp only at h
          cases h
        | ok elem r₂ =>
          rw [hg] at h
          dsimp only at h
          cases hs : setField v nm elem with
          | none =>
            rw [hs] at h
            dsimp only at h
            cases h
          | some v' =>
            rw [hs] at h
            dsimp only at h
            exact ih v' r₂ f' w hmem' h
      | none =>
        rw [hb'] at h
        dsimp only at h
        cases hz : f.zeroValueFallthrough with
        | true =>
          rw [hz, if_pos rfl] at h
          exact ih v r f' w hmem' h
        | false =>
          rw [hz, if_neg Bool.false_ne_true] at h
          cases hq : quickValue fty r with
          | none =>
            rw [hq] at h
            dsimp only at h
            injection h with h1 h2 h3
            exact Option.noConfusion h3
          | some pr =>
            obtain ⟨elem, r₂⟩ := pr
            rw [hq] at h
            dsimp only at h
            cases hs : setField v nm elem with
            | none =>
              rw [hs] at h
              dsimp only at h
              cases h
            | some v' =>
              rw [hs] at h
              dsimp only at h
              exact ih v' r₂ f' w hmem' h

theorem fuzzValue_ret_none {f : Fuzz} {enum : List (String × GoType)}
    {r : RandSrc} {n : Nat} {f' : Fuzz} {w : GoRecord}
    (h : fuzzValue f enum r n = VRes.ret f' w none) :
    valueLoop f n enum (zeroRecord f.typ) r = VRes.ret f' w none := by
  unfold fuzzValue at h
  cases hv : valueLoop f n enum (zeroRecord f.typ) r <;> rw [hv] at h
  case ret f0 v0 e0 =>
    dsimp only at h
    cases h
    rfl
  case panicked f0 v0 p0 =>
    dsimp only at h
    injection h with h1 h2 h3
    exact Option.noConfusion h3

theorem perm_pair {α : Type} {x y : α} {l : List α} (h : l.Perm [x, y]) :
    l = [x, y] ∨ l = [y, x] := by
  have hlen : l.length = 2 := by simpa using h.length_eq
  obtain ⟨a, b, rfl⟩ := List.length_eq_two.mp hlen
  have ha : a ∈ [x, y] := h.mem_iff.mp (by simp)
  have ha' : a = x ∨ a = y := by simpa using ha
  rcases ha' with rfl | rfl
  · left
    have hb : b = y := by simpa using List.perm_singleton.mp h.cons_inv
    rw [hb]
  · right
    have hxa : ([x, a] : List α).Perm [a, x] := List.Perm.swap a x []
    have hb : b = x := by
      simpa using List.perm_singleton.mp ((h.trans hxa).cons_inv)
    rw [hb]

/-- C7: a bound field is always resolved from its generator's output —
in general, whenever field `name` is bound to `G` and a `Fuzz.Value`
call that enumerates `name` succeeds, the produced record holds at
`name` a value that `G` returned (for any fallthrough flag setting);
in particular, on the `Person` session with `Age` bound to the
constant-42 generator, every `Fuzz.Value` call succeeds with
`Age == 42` for every enumeration order, random source, size hint and
fallthrough setting. -/
theorem bound_field_precedence :
    (∀ (f : Fuzz) (enum : List (String × GoType)) (r : RandSrc) (n : Nat)
      (name : String) (G : Generator) (f' : Fuzz) (w : GoRecord),
      lookupKey f.bindings name = some G →
      name ∈ enum.map Prod.fst →
      fuzzValue f enum r n = VRes.ret f' w none →
      ∃ r₁ val r₂, G r₁ n = GenStep.ok val r₂ ∧ lookupKey w name = some val) ∧
    (∀ (b : Bool) (enum : List (String × GoType)) (r : RandSrc) (n : Nat),
      enum.Perm (personBound b).fields →
      ∃ w, fuzzValue (personBound b) enum r n =
          VRes.ret (personBound b) w none ∧
        lookupKey w "Age" = some (GoValue.int 42)) := by
  constructor
  · intro f enum r n name G f' w hb hmem h
    exact valueLoop_bound f n name G hb enum (zeroRecord f.typ) r f' w hmem
      (fuzzValue_ret_none h)
  · intro b enum r n hperm
    have h' : enum.Perm [("Name", GoType.string), ("Age", GoType.int)] := hperm
    rcases perm_pair h' with rfl | rfl
    · cases b with
      | false =>
        exact ⟨[("Name", GoValue.str (toString (r.headD 0))),
          ("Age", GoValue.int 42)], rfl, rfl⟩
      | true =>
        exact ⟨[("Name", GoValue.str ""), ("Age", GoValue.int 42)], rfl, rfl⟩
    · cases b with
      | false =>
        exact ⟨[("Name", GoValue.str (toString (r.headD 0))),
          ("Age", GoValue.int 42)], rfl, rfl⟩
      | true =>
        exact ⟨[("Name", GoValue.str ""), ("Age", GoValue.int 42)], rfl, rfl⟩

/-- C7 witness: the `Person` session with `Age` bound to the
constant-42 generator and fallthrough enabled produces `Age == 42` on a
concrete random stream. -/
theorem bound_field_precedence_witness :
    ∃ w, fuzzValue (personBound true) personType [7] 2 =
        VRes.ret (personBound true) w none ∧
      lookupKey w "Age" = some (GoValue.int 42) :=
  bound_field_precedence.2 true personType [7] 2 (List.Perm.refl _)

/-- C3 (amended): production is deterministic as a function of the
random source's seed together with the field-enumeration order: two
`Fuzz.Value` calls on the fresh `Person` session (no bindings,
fallthrough disabled) given freshly re-seeded identical random sources
and the same enumeration order return equal results, and each succeeds
with a `Name` string and an `Age` integer.  (The enumeration order of
the Go field map is not itself a function of the seed.) -/
theorem produce_deterministic_given_order
    (enum₁ enum₂ : List (String × GoType)) (r₁ r₂ : RandSrc) (n : Nat)
    (hperm : enum₁.Perm personFuzz.fields) (he : enum₂ = enum₁)
    (hr : r₂ = r₁) :
    fuzzValue personFuzz enum₂ r₂ n = fuzzValue personFuzz enum₁ r₁ n ∧
    ∃ s a, fuzzValue personFuzz enum₁ r₁ n =
      VRes.ret personFuzz
        [("Name", GoValue.str s), ("Age", GoValue.int a)] none := by
  subst he
  subst hr
  refine ⟨rfl, ?_⟩
  have h' : enum₂.Perm [("Name", GoType.string), ("Age", GoType.int)] := hperm
  rcases perm_pair h' with rfl | rfl
  · exact ⟨toString (r₂.headD 0), Int.ofNat (r₂.tail.headD 0), rfl⟩
  · exact ⟨toString (r₂.tail.headD 0), Int.ofNat (r₂.headD 0), rfl⟩

/-- C3 witness: with the same enumeration order and the same stream,
the two calls agree and produce a string `Name` and integer `Age`. -/
theorem produce_deterministic_given_order_witness :
    fuzzValue personFuzz personType [1, 2] 0 =
      fuzzValue personFuzz personType [1, 2] 0 ∧
    ∃ s a, fuzzValue personFuzz personType [1, 2] 0 =
      VRes.ret personFuzz
        [("Name", GoValue.str s), ("Age", GoValue.int a)] none :=
  produce_deterministic_given_order personType personType [1, 2] [1, 2] 0
    (List.Perm.refl _) rfl rfl

/-- C3 counterexample: both enumeration orders below are legitimate
iterations of the `Person` field map, yet with the identical re-seeded
stream `[0, 1]` they produce different records (`("0", 1)` versus
`("1", 0)`): the two calls' `Name` and `Age` values are not equal, so
production is not a function of the seed alone. -/
theorem produce_order_dependent_counterexample :
    ([("Name", GoType.string), ("Age", GoType.int)] :
        List (String × GoType)).Perm personFuzz.fields ∧
    ([("Age", GoType.int), ("Name", GoType.string)] :
        List (String × GoType)).Perm personFuzz.fields ∧
    VRes.errOf (fuzzValue personFuzz
      [("Name", GoType.string), ("Age", GoType.int)] [0, 1] 5) = none ∧
    VRes.errOf (fuzzValue personFuzz
      [("Age", GoType.int), ("Name", GoType.string)] [0, 1] 5) = none ∧
    VRes.record (fuzzValue personFuzz
        [("Name", GoType.string), ("Age", GoType.int)] [0, 1] 5) ≠
      VRes.record (fuzzValue personFuzz
        [("Age", GoType.int), ("Name", GoType.string)] [0, 1] 5) :=
  ⟨List.Perm.refl _, List.Perm.swap ("Name", GoType.string)
      ("Age", GoType.int) [], rfl, rfl, by decide⟩

/-- C2 (the code's actual behaviour at the claim's failing input): with
one generator and two output slots — mismatched lengths — `QuickValues`
does not raise any abrupt termination: the dead self-comparison
`len(v) != len(v)` never fires, slot 0 is filled and slot 1 is silently
left untouched. -/
theorem quickValues_silent_partial_fill :
    QuickValues [gen42] [GoValue.str "", GoValue.int 7] [5] =
      QRes.ret [GoValue.int 42, GoValue.int 7] [5] ∧
    ([gen42] : List Generator).length ≠
      ([GoValue.str "", GoValue.int 7] : List GoValue).length :=
  ⟨rfl, by decide⟩
